import Mathlib

/-!
Shallow embedding of the gossh repository (kkrs/gossh): a tool that runs one
shell command concurrently on a fleet of hosts over ssh, with bounded
parallelism, per-session timeouts, streamed output and aggregated
success/failure reporting.

The embedding follows the Go source:
* `src/gossh.go` — `toAddr`, `dial`, `Dial`, `Run`, `RunOn`, `Client.run`,
  `Client.Run`, `printLines`, `SessionTimeoutError`, `Config`.
* `src/log.go` — `Logger`, `GetLogger`, `Logger.WithSubject`.
* `src/cmd/gossh/main.go` — `printAndCollateStatus`, flag handling, `main`.
* `src/cmd/gossh/gorange.go` — `expand`, `compress` (wrappers over the
  external grange library; the library itself is modelled from the spec).

External effects (network dials, ssh handshakes, remote command execution,
clocks) are abstracted as explicit environment records: each fallible step of
the real code is represented by an `Option SSHError` field telling whether
that step fails in the run under consideration, and the session-timeout race
is represented by a boolean saying which select arm fires first.  Handler
function values are represented by their presence (`Bool`), since the
binary's handlers are the fixed `PrintStdout`/`PrintStderr`/
`printAndCollateStatus`; the effect of the status handler is modelled
explicitly as a list of emitted `(host, status)` events.
-/

namespace GoSSH

/-- Errors arising along a per-host pipeline.  `exitError` models
`*ssh.ExitError` (remote command exited non-zero), `sessionTimeout` models
`*SessionTimeoutError`, and the remaining constructors model transport and
session-setup failures; the `tag` keeps distinct underlying causes distinct. -/
inductive SSHError where
  | exitError (code : Nat)
  | sessionTimeout
  | dialError (tag : Nat)
  | handshakeError (tag : Nat)
  | openError (tag : Nat)
  | pipeError (tag : Nat)
  | startError (tag : Nat)
deriving DecidableEq, Repr

/-- Embeds `Logger` of `src/log.go`: a start instant, a subject label, and a
debug level.  Instants are abstract `Nat` ticks. -/
structure Logger where
  start : Nat
  subject : String
  debugLevel : Nat
deriving DecidableEq, Repr

/-- Embeds `GetLogger` of `src/log.go`; the extra `now` argument stands for the
`time.Now()` call. -/
def GetLogger (now : Nat) (subject : String) (debugLevel : Nat) : Logger :=
  ⟨now, subject, debugLevel⟩

/-- Embeds `(*Logger).WithSubject` of `src/log.go`: a copy of the logger with
the subject replaced, start and level preserved. -/
def Logger.WithSubject (l : Logger) (subject : String) : Logger :=
  ⟨l.start, subject, l.debugLevel⟩

/-- Embeds `Config` of `src/gossh.go`.  Authenticators are opaque (`Nat`
tags); durations are `time.Duration` nanosecond values (`Int`); the three
handler fields record whether the corresponding handler is non-nil; `Logger`
is `Option` since the Go field is a possibly-nil pointer. -/
structure Config where
  Login : String
  AuthMethods : List Nat
  ConnectTimeout : Int
  SessionTimeout : Int
  StdoutHandler : Bool
  StderrHandler : Bool
  StatusHandler : Bool
  Logger : Option Logger
deriving DecidableEq, Repr

/-- Embeds `Client` of `src/gossh.go` (the `*ssh.Client` connection handle
itself is opaque and omitted). -/
structure Client where
  logger : Option Logger
  host : String
  sessionTimeout : Int
  handleStdout : Bool
  handleStderr : Bool
  handleStatus : Bool
deriving DecidableEq, Repr

/-- Embeds `toAddr` of `src/gossh.go`: `strings.Index(host, ":") == -1`
appends the default port `22`, otherwise the host passes through unchanged. -/
def toAddr (host : String) : String :=
  if host.data.contains ':' then host else host ++ ":22"

/-- The address `dial` actually passes to `net.DialTimeout` (src/gossh.go,
`addr := toAddr(host)`). -/
def dialAddr (host : String) : String :=
  toAddr host

/-- `math.MaxInt64`, the timer duration used when the configured session
timeout is zero. -/
def maxInt64 : Int := 9223372036854775807

/-- Embeds the timer arming in `(*Client).run`:
`d := cl.sessionTimeout; if d == 0 { d = math.MaxInt64 }`. -/
def timerDuration (sessionTimeout : Int) : Int :=
  if sessionTimeout = 0 then maxInt64 else sessionTimeout

/-- Environment of one `(*Client).run` call: whether each fallible step fails,
the result of `sess.Wait()` (`none` = exit status 0), and which arm of the
final `select` fires first (`timerFiresFirst = true` models `<-timeout.C`
being selected). -/
structure SessionEnv where
  newSessionErr : Option SSHError
  stdoutPipeErr : Option SSHError
  stderrPipeErr : Option SSHError
  startErr : Option SSHError
  waitResult : Option SSHError
  timerFiresFirst : Bool
deriving DecidableEq, Repr

/-- The early-return error of `(*Client).run` before the timeout race:
`NewSession`, the two conditional pipe acquisitions (a pipe is only obtained
when the corresponding handler is configured), and `sess.Start`. -/
def sessionSetupErr (cl : Client) (env : SessionEnv) : Option SSHError :=
  match env.newSessionErr with
  | some e => some e
  | none =>
    match (if cl.handleStdout then env.stdoutPipeErr else none) with
    | some e => some e
    | none =>
      match (if cl.handleStderr then env.stderrPipeErr else none) with
      | some e => some e
      | none => env.startErr

/-- Observable outcome of `(*Client).run`: the returned error, whether
`timeout.Stop()` was called, whether `sess.Signal(ssh.SIGQUIT)` was attempted,
and the duration the timer was armed with (`none` when an early return happens
before the timer is created). -/
structure RunOutcome where
  result : Option SSHError
  timerStopped : Bool
  signalledRemote : Bool
  timerArmed : Option Int
deriving DecidableEq, Repr

/-- Embeds `(*Client).run` of `src/gossh.go`: session setup, then the race
between the timer channel and the `sess.Wait()` status channel.  If the timer
fires first the function signals the remote end, closes the session and
returns `&SessionTimeoutError{}`; otherwise it stops the timer and returns the
wait result. -/
def Client.run (cl : Client) (env : SessionEnv) : RunOutcome :=
  match sessionSetupErr cl env with
  | some e => ⟨some e, false, false, none⟩
  | none =>
    if env.timerFiresFirst then
      ⟨some SSHError.sessionTimeout, false, true, some (timerDuration cl.sessionTimeout)⟩
    else
      ⟨env.waitResult, true, false, some (timerDuration cl.sessionTimeout)⟩

/-- Embeds `(*Client).Run` of `src/gossh.go`: runs the command, then invokes
the status handler (when configured) with the host and the final error.  The
second component is the list of status events emitted. -/
def Client.Run (cl : Client) (env : SessionEnv) :
    Option SSHError × List (String × Option SSHError) :=
  let err := (Client.run cl env).result
  (err, if cl.handleStatus then [(cl.host, err)] else [])

/-- Environment of one `dial` call: whether `net.DialTimeout` fails, and
whether `ssh.NewClientConn` (handshake/authentication) fails. -/
structure DialEnv where
  netErr : Option SSHError
  handshakeErr : Option SSHError
deriving DecidableEq, Repr

/-- Embeds `dial` of `src/gossh.go` (the lowercase helper): TCP connect under
the connect timeout, then the ssh handshake; on success a `Client` is built
from the configuration.  Either failure returns `(nil, err)` with no retry. -/
def dial (host : String) (cfg : Config) (env : DialEnv) :
    Option Client × Option SSHError :=
  match env.netErr with
  | some e => (none, some e)
  | none =>
    match env.handshakeErr with
    | some e => (none, some e)
    | none =>
      (some ⟨cfg.Logger, host, cfg.SessionTimeout, cfg.StdoutHandler,
              cfg.StderrHandler, cfg.StatusHandler⟩, none)

/-- The logger write `Dial` performs through the shared `*Config` before
dialing: `cfg.Logger = GetLogger(host, 2)` when nil, otherwise
`cfg.Logger = cfg.Logger.WithSubject(host)`. -/
def dialLoggerUpdate (host : String) (now : Nat) (cfg : Config) : Config :=
  match cfg.Logger with
  | none => { cfg with Logger := some (GetLogger now host 2) }
  | some l => { cfg with Logger := some (l.WithSubject host) }

/-- Embeds `Dial` of `src/gossh.go`.  Returns, in order: the `(client, err)`
pair the caller receives, the final state of the pointed-to `Config` (Go
passes `*Config`, and `Dial` writes its `Logger` field), and the status events
emitted.  Faithful to the source, the error is propagated to the caller only
when a status handler is configured: `if err != nil && cfg.StatusHandler != nil`
reports and returns the error, and the fall-through `return client, nil`
otherwise returns the nil client with a nil error. -/
def Dial (host : String) (cfg : Config) (now : Nat) (env : DialEnv) :
    (Option Client × Option SSHError) × Config × List (String × Option SSHError) :=
  let cfg' := dialLoggerUpdate host now cfg
  let res := dial host cfg' env
  match res.2 with
  | some e =>
    if cfg'.StatusHandler then ((none, some e), cfg', [(host, some e)])
    else ((res.1, none), cfg', [])
  | none => ((res.1, none), cfg', [])

/-- Result of the package-level `Run`: either a normal return carrying the
error value, or the nil-pointer panic that `defer client.Close()` hits when
`Dial` returns `(nil, nil)`. -/
inductive RunResult where
  | ok (err : Option SSHError)
  | nilPanic
deriving DecidableEq, Repr

/-- Environment of one per-host pipeline: the dial environment and the session
environment. -/
structure HostEnv where
  dialEnv : DialEnv
  sessEnv : SessionEnv
deriving DecidableEq, Repr

/-- Embeds the package-level `Run` of `src/gossh.go`: dial, early return on a
dial error, otherwise run the command on the obtained client.  The second
component collects the status events emitted during the call (by `Dial` on a
dial failure, by `Client.Run` otherwise). -/
def Run (host cmd : String) (cfg : Config) (now : Nat) (env : HostEnv) :
    RunResult × List (String × Option SSHError) :=
  let d := Dial host cfg now env.dialEnv
  match d.1.2 with
  | some e => (RunResult.ok (some e), d.2.2)
  | none =>
    match d.1.1 with
    | some client =>
      let r := Client.Run client env.sessEnv
      (RunResult.ok r.1, d.2.2 ++ r.2)
    | none => (RunResult.nilPanic, d.2.2)

/-- The status error the pipeline for one host reports (the argument of the
single status-handler invocation for that host). -/
def runStatusOf (host cmd : String) (cfg : Config) (now : Nat) (env : HostEnv) :
    Option SSHError :=
  match (Run host cmd cfg now env).1 with
  | RunResult.ok e => e
  | RunResult.nilPanic => none

/-- Embeds the ceiling coercion at the top of `RunOn`:
`if maxFlight < 1 { maxFlight = 1 }`. -/
def goMaxFlight (maxFlight : Int) : Int :=
  if maxFlight < 1 then 1 else maxFlight

/-- The logger defaulting `RunOn` performs on the shared `Config` before
dispatching: `if cfg.Logger == nil { cfg.Logger = GetLogger("main", 2) }`. -/
def runOnCfg (cfg : Config) (now : Nat) : Config :=
  match cfg.Logger with
  | none => { cfg with Logger := some (GetLogger now "main" 2) }
  | some _ => cfg

/-- Status events emitted by the pipelines `RunOn` dispatches for `hosts`,
starting at dispatch index `i`; `envs` gives each dispatch index its external
environment.  Every pipeline appends its events to the shared aggregate under
a mutex and `RunOn` joins all pipelines before returning, so the collected
multiset of events is interleaving-independent; the embedding collects them in
dispatch order. -/
def runOnFrom (hosts : List String) (cmd : String) (cfg : Config) (now : Nat)
    (envs : Nat → HostEnv) (i : Nat) : List (String × Option SSHError) :=
  match hosts with
  | [] => []
  | h :: t => (Run h cmd cfg now (envs i)).2 ++ runOnFrom t cmd cfg now envs (i + 1)

/-- Status events of a whole `RunOn(hosts, cmd, maxFlight, cfg)` call.  The
concurrency ceiling `maxFlight` bounds scheduling (see `OrchStep`) but does
not affect which events are emitted. -/
def runOnEvents (hosts : List String) (cmd : String) (maxFlight : Int)
    (cfg : Config) (now : Nat) (envs : Nat → HostEnv) :
    List (String × Option SSHError) :=
  runOnFrom hosts cmd (runOnCfg cfg now) now envs 0

/-- Embeds the aggregate of `src/cmd/gossh/main.go`: the two mutex-guarded
package-level slices `succeeded` and `failed`. -/
structure Aggregate where
  succeeded : List String
  failed : List String
deriving DecidableEq, Repr

/-- Embeds `printAndCollateStatus` of `src/cmd/gossh/main.go` (its effect on
the aggregate): a non-nil status appends the host to `failed`, a nil status
appends it to `succeeded`. -/
def printAndCollateStatus (agg : Aggregate) (host : String)
    (status : Option SSHError) : Aggregate :=
  match status with
  | some _ => { agg with failed := agg.failed ++ [host] }
  | none => { agg with succeeded := agg.succeeded ++ [host] }

/-- Folds a list of status events into the aggregate, starting from empty
slices. -/
def collate (events : List (String × Option SSHError)) : Aggregate :=
  events.foldl (fun agg ev => printAndCollateStatus agg ev.1 ev.2) ⟨[], []⟩

/-- The aggregate state after a full `RunOn` with `printAndCollateStatus` as
the status handler. -/
def runOnAggregate (hosts : List String) (cmd : String) (maxFlight : Int)
    (cfg : Config) (now : Nat) (envs : Nat → HostEnv) : Aggregate :=
  collate (runOnEvents hosts cmd maxFlight cfg now envs)

/-- Scheduling state of `RunOn`'s dispatch loop: the hosts whose goroutine has
been spawned so far (in dispatch order), the number of pipelines spawned but
not yet finished, and the number of finished pipelines. -/
structure OrchState where
  dispatched : List String
  active : Nat
  finished : Nat
deriving DecidableEq, Repr

/-- Small-step semantics of `RunOn`'s bounded fan-out (src/gossh.go lines
102–127).  `dispatch` models one iteration of the `for _, host := range hosts`
loop: `sem <- struct{}{}` succeeds only while fewer than the (coerced) ceiling
many semaphore slots are held — a slot is held from just before a pipeline
goroutine is spawned until just after it finishes — and the spawned goroutine
runs the next host of the list.  `complete` models one pipeline goroutine
finishing: `workers.Done()` and the deferred `<-sem` release. -/
inductive OrchStep (hosts : List String) (maxFlight : Int) :
    OrchState → OrchState → Prop
  | dispatch (s : OrchState) (hlen : s.dispatched.length < hosts.length)
      (hsem : (s.active : Int) < goMaxFlight maxFlight) :
      OrchStep hosts maxFlight s
        ⟨s.dispatched ++ [hosts.get ⟨s.dispatched.length, hlen⟩],
          s.active + 1, s.finished⟩
  | complete (s : OrchState) (hact : 0 < s.active) :
      OrchStep hosts maxFlight s ⟨s.dispatched, s.active - 1, s.finished + 1⟩

/-- States reachable from the start of `RunOn` (nothing dispatched). -/
def OrchReachable (hosts : List String) (maxFlight : Int) (s : OrchState) : Prop :=
  Relation.ReflTransGen (OrchStep hosts maxFlight) ⟨[], 0, 0⟩ s

/-- The condition under which `RunOn` returns: the dispatch loop has consumed
the whole host list and `workers.Wait()` has observed a zero counter (no
pipeline still active). -/
def Returned (hosts : List String) (s : OrchState) : Prop :=
  s.dispatched.length = hosts.length ∧ s.active = 0

/-- Inductive invariant of the dispatch loop: the dispatched hosts are the
prefix of the input list of their own length, dispatch/finish counters agree,
and the number of live pipelines never exceeds the coerced ceiling. -/
def OrchInv (hosts : List String) (maxFlight : Int) (s : OrchState) : Prop :=
  s.dispatched = hosts.take s.dispatched.length ∧
  s.dispatched.length = s.active + s.finished ∧
  (s.active : Int) ≤ goMaxFlight maxFlight

/-! ### Command-line surface (`src/cmd/gossh/main.go`) -/

/-- The parsed command-line flags of `main` (`src/cmd/gossh/main.go`).  The
two timeout flags are float64 seconds; they are modelled as exact rationals
(the float-arithmetic rounding of `connTimeout*1000` is not at issue in any
claim). -/
structure Flags where
  identities : String
  useAgent : Bool
  login : String
  port : String
  rangeExpr : String
  hostsFile : String
  maxFlight : Int
  connTimeout : ℚ
  sessionTimeout : ℚ
  displayVersion : Bool
deriving DecidableEq, Repr

/-- What `main` does after flag parsing, as observable behaviour: print the
version and exit, die on a fatal configuration error, or call
`gossh.RunOn` with the recorded arguments (handlers are the fixed
`PrintStdout`/`PrintStderr`/`printAndCollateStatus` and are not recorded). -/
inductive MainAction where
  | printVersion
  | fatalNoTargets
  | fatalNoAuth
  | runCmd (rangeExpr hostsFile login identities : String) (useAgent : Bool)
      (connTimeoutMs sessionTimeoutMs : ℚ) (maxFlight : Int) (cmd : String)
deriving DecidableEq

/-- Embeds the control flow of `main` after `flag.Parse()`.  External
outcomes are explicit: `identOk` is whether the identity files yield a usable
auth method, `agentOk` whether the agent socket yields one, `targetsOk`
whether resolving the host source (range expansion / file read) succeeds.
The `-p`/`port` flag is parsed into `Flags` but, like in the source, nothing
below reads it. -/
def mainPlan (fl : Flags) (args : List String)
    (identOk agentOk targetsOk : Bool) : MainAction :=
  let cmd := String.intercalate " " args
  if fl.displayVersion then MainAction.printVersion
  else if (fl.rangeExpr = "" ∧ fl.hostsFile = "") ∨ targetsOk = false then
    MainAction.fatalNoTargets
  else if (fl.identities = "" ∨ identOk = false) ∧
      (fl.useAgent = false ∨ agentOk = false) then
    MainAction.fatalNoAuth
  else
    MainAction.runCmd fl.rangeExpr fl.hostsFile fl.login fl.identities
      fl.useAgent (fl.connTimeout * 1000) (fl.sessionTimeout * 1000)
      fl.maxFlight cmd

/-! ### Stream multiplexer (`printLines`, src/gossh.go lines 27–37) -/

/-- `bufio.MaxScanTokenSize`, the default maximum token size of
`bufio.Scanner`. -/
def maxScanTokenSize : Nat := 64 * 1024

/-- Whether a line exceeds the scanner's maximum token size.  A stream is
modelled as the list of its lines' contents; in the underlying byte stream
each line occupies its content plus the terminating newline, and
`bufio.Scanner` fails with `ErrTooLong` exactly when that exceeds
`maxScanTokenSize` bytes of buffer. -/
def lineTooLong (l : String) : Prop :=
  maxScanTokenSize < l.data.length + 1

instance (l : String) : Decidable (lineTooLong l) :=
  inferInstanceAs (Decidable (_ < _))

/-- Output of one `printLines` call: the atomic writes performed under
`stdoutMutex`, and whether `scanner.Err()` was non-nil at the end (in which
case the error is written to the process's stderr). -/
structure ScanOutput where
  writes : List String
  scanErr : Bool
deriving DecidableEq, Repr

/-- Embeds `printLines` of `src/gossh.go`: scan the stream line by line,
printing `host:stream:text` per line under the mutex; the scan stops at the
first line that exceeds the scanner's token limit, dropping it and everything
after it, and the scanner error is then reported on stderr. -/
def printLines (host stream : String) (lines : List String) : ScanOutput :=
  match lines with
  | [] => ⟨[], false⟩
  | l :: rest =>
    if lineTooLong l then ⟨[], true⟩
    else
      let out := printLines host stream rest
      ⟨(host ++ ":" ++ stream ++ ":" ++ l ++ "\n") :: out.writes, out.scanErr⟩

/-- One session run together with its two stream-handling goroutines: the
session outcome is computed from the session environment alone, and the two
`printLines` goroutines consume the streams independently (their results are
never read by `(*Client).run`). -/
def runWithStreams (cl : Client) (env : SessionEnv)
    (stdoutLines stderrLines : List String) :
    RunOutcome × ScanOutput × ScanOutput :=
  (Client.run cl env,
    printLines cl.host "stdout" stdoutLines,
    printLines cl.host "stderr" stderrLines)

/-! ### Concrete configurations used as inputs of closed theorems -/

/-- A configuration with no status handler configured (every other field
arbitrary but concrete). -/
def cfgNoStatusHandler : Config :=
  ⟨"root", [0], 10000000000, 0, true, true, false, none⟩

/-- A configuration with a status handler and a logger labelled `main`. -/
def cfgWithHandler : Config :=
  ⟨"root", [0], 10000000000, 0, true, true, true, some ⟨0, "main", 2⟩⟩

/-- A dial environment in which the TCP connect fails. -/
def dialEnvNetFail : DialEnv := ⟨some (SSHError.dialError 0), none⟩

/-- A dial environment in which both connect and handshake succeed. -/
def dialEnvOk : DialEnv := ⟨none, none⟩

/-- A session environment where everything succeeds and the command exits 0
before the timer fires. -/
def sessEnvOk : SessionEnv := ⟨none, none, none, none, none, false⟩

/-- A session environment whose setup succeeds but whose timer fires before
the command's exit-wait completes. -/
def sessEnvTimedOut : SessionEnv := ⟨none, none, none, none, none, true⟩

/-- A connected client for host `h1` with all three handlers configured and no
session timeout configured. -/
def clientH1 : Client := ⟨some ⟨0, "h1", 2⟩, "h1", 0, true, true, true⟩

/-- A line one byte over the scanner's limit: 2^16 characters of content,
which together with the terminating newline exceeds `maxScanTokenSize`. -/
def bigLine : String := String.mk (List.replicate 65536 'a')

end GoSSH

namespace GoRange

/-!
### Host-range expansion and compression (`src/cmd/gossh/gorange.go`)

`expand` rewrites every `(\d+)-(\d+)` into `${1}..${2}` and hands the result
to the external grange library's `Query`; `compress` hands the node list to
grange's `Compress` and rewrites every `(\d+)\.\.(\d+)` back into
`${1}-${2}`.  The two regex rewrites are translated as a character-level
scanner (`parseSep`, `replaceSep`); the grange library itself is not part of
this repository and is modelled from the spec (`grangeQuery`,
`grangeCompress`).
-/

/-- The decimal digit character for `n % 10`. -/
def decDigit (n : Nat) : Char :=
  match n with
  | 0 => '0' | 1 => '1' | 2 => '2' | 3 => '3' | 4 => '4'
  | 5 => '5' | 6 => '6' | 7 => '7' | 8 => '8' | _ => '9'

/-- Numeric value of a digit character. -/
def digitVal (c : Char) : Nat := c.toNat - 48

/-- Canonical (unpadded) decimal numeral of a natural number, most
significant digit first. -/
def natDec (n : Nat) : List Char :=
  if n < 10 then [decDigit n]
  else natDec (n / 10) ++ [decDigit (n % 10)]
termination_by n
decreasing_by exact Nat.div_lt_self (by omega) (by omega)

/-- Numeric value of a decimal digit string. -/
def decToNat (ds : List Char) : Nat :=
  ds.foldl (fun acc c => acc * 10 + digitVal c) 0

/-- Finds the leftmost occurrence of the pattern `(\d+)sep(\d+)` — a maximal
digit run, the literal separator, another digit run — and splits the input
into `(before, first digits, second digits, after)`.  This is the match step
shared by the two regexes of `gorange.go` (`sep` is `-` for `(\d+)-(\d+)` and
`..` for `(\d+)\.\.(\d+)`). -/
def parseSep (sep : List Char) : List Char →
    Option (List Char × List Char × List Char × List Char)
  | [] => none
  | c :: rest =>
    if c.isDigit then
      if sep.isPrefixOf (rest.dropWhile Char.isDigit) then
        match (rest.dropWhile Char.isDigit).drop sep.length with
        | c2 :: r3 =>
          if c2.isDigit then
            some ([], c :: rest.takeWhile Char.isDigit,
                  c2 :: r3.takeWhile Char.isDigit, r3.dropWhile Char.isDigit)
          else
            (parseSep sep (rest.dropWhile Char.isDigit)).map
              (fun q => ((c :: rest.takeWhile Char.isDigit) ++ q.1, q.2))
        | [] =>
          (parseSep sep (rest.dropWhile Char.isDigit)).map
            (fun q => ((c :: rest.takeWhile Char.isDigit) ++ q.1, q.2))
      else
        (parseSep sep (rest.dropWhile Char.isDigit)).map
          (fun q => ((c :: rest.takeWhile Char.isDigit) ++ q.1, q.2))
    else
      (parseSep sep rest).map (fun q => (c :: q.1, q.2))
termination_by cs => cs.length
decreasing_by
  all_goals simp only [List.length_cons]
  all_goals first
    | exact Nat.lt_succ_of_le (List.Sublist.length_le (List.dropWhile_sublist _))
    | omega

/-- Replaces every `(\d+)sepA(\d+)` by `${1}sepB${2}`, continuing after each
match like `regexp.ReplaceAllString`.  Each match spans at least three
characters of the input, so `fuel` many iterations (one per character of the
original input, see `replaceSep`) always suffice. -/
def replaceSepFuel (sepA sepB : List Char) : Nat → List Char → List Char
  | 0, cs => cs
  | fuel + 1, cs =>
    match parseSep sepA cs with
    | none => cs
    | some (p, d1, d2, s) =>
      p ++ d1 ++ sepB ++ d2 ++ replaceSepFuel sepA sepB fuel s

/-- `regexp.ReplaceAllString` for the pattern `(\d+)sepA(\d+)` with the
replacement `${1}sepB${2}`. -/
def replaceSep (sepA sepB : List Char) (cs : List Char) : List Char :=
  replaceSepFuel sepA sepB cs.length cs

/-- Modelled from the spec: the external grange library's `Query` on a range
expression of the form `prefix<a>..<b>suffix` (the only form the spec's host
resolver interface describes, §6: `expand(spec) -> ordered list of host
strings`), producing one host per number of the range; an expression without
such a range denotes the single node itself.  The list stands for grange's
result set, enumerated in ascending numeric order. -/
def grangeQuery (spec : String) : List String :=
  match parseSep ['.', '.'] spec.data with
  | none => [spec]
  | some (p, d1, d2, s) =>
    (List.range' (decToNat d1) (decToNat d2 + 1 - decToNat d1)).map
      (fun n => String.mk (p ++ natDec n ++ s))

/-- Splits a node name at its last maximal digit run:
`node = prefix ++ digits ++ suffix` with `suffix` digit-free. -/
def parseLast (cs : List Char) : Option (List Char × List Char × List Char) :=
  if (cs.reverse.dropWhile (fun c => !c.isDigit)).takeWhile Char.isDigit = [] then
    none
  else
    some ((((cs.reverse.dropWhile (fun c => !c.isDigit)).dropWhile Char.isDigit).reverse,
           ((cs.reverse.dropWhile (fun c => !c.isDigit)).takeWhile Char.isDigit).reverse,
           (cs.reverse.takeWhile (fun c => !c.isDigit)).reverse))

/-- `bs` lists consecutive successors of `n`. -/
def contiguousFrom (n : Nat) : List Nat → Bool
  | [] => true
  | m :: rest => (m == n + 1) && contiguousFrom m rest

/-- Modelled from the spec: the external grange library's `Compress`
(§6: `compress(list of host strings) -> spec string`, collapsing numeric
ranges, e.g. `host10`,`host11` → `host10-11`; grange itself emits `..`, which
the wrapper rewrites to `-`).  Nodes sharing a digit-free stem around their
last digit run, with consecutive numbers, collapse to `prefix<a>..<b>suffix`;
a single node stays itself; anything else is emitted as a comma-joined list
(grange's grouped forms are not needed by this development). -/
def grangeCompress (nodes : List String) : String :=
  match nodes.mapM (fun n => parseLast n.data) with
  | none => String.intercalate "," nodes
  | some [] => ""
  | some [q] => String.mk (q.1 ++ q.2.1 ++ q.2.2)
  | some (q :: q2 :: qs) =>
    if (q2 :: qs).all (fun r => r.1 = q.1 ∧ r.2.2 = q.2.2) ∧
        contiguousFrom (decToNat q.2.1)
          ((q2 :: qs).map (fun r => decToNat r.2.1)) = true then
      String.mk (q.1 ++ q.2.1 ++ '.' :: '.' ::
        (((q2 :: qs).getLast (List.cons_ne_nil q2 qs)).2.1 ++ q.2.2))
    else
      String.intercalate "," nodes

/-- Embeds `expand` of `src/cmd/gossh/gorange.go`: rewrite `(\d+)-(\d+)` to
`${1}..${2}`, then query grange. -/
def expand (rangeStr : String) : List String :=
  grangeQuery (String.mk (replaceSep ['-'] ['.', '.'] rangeStr.data))

/-- Embeds `compress` of `src/cmd/gossh/gorange.go`: grange-compress the node
list, then rewrite `(\d+)\.\.(\d+)` to `${1}-${2}`. -/
def compress (nodes : List String) : String :=
  String.mk (replaceSep ['.', '.'] ['-'] (grangeCompress nodes).data)

end GoRange

namespace GoSSH

/-! ### Theorems -/

theorem bigLine_data_length : bigLine.data.length = 65536 := by
  show (List.replicate 65536 'a').length = 65536
  rw [List.length_replicate]

/-- Claim C6: a host string without an explicit port (no colon) is dialed at
address `host ++ ":22"`; a host string carrying a colon is dialed at exactly
that address, passed through unchanged. -/
theorem toAddr_default_port (host : String) :
    (host.data.contains ':' = false →
      toAddr host = host ++ ":22" ∧ dialAddr host = host ++ ":22") ∧
    (host.data.contains ':' = true →
      toAddr host = host ∧ dialAddr host = host) := by
  refine ⟨fun h => ?_, fun h => ?_⟩
  · have hmem : ':' ∉ host.data := by simpa using h
    exact ⟨by simp [toAddr, hmem], by simp [dialAddr, toAddr, hmem]⟩
  · have hmem : ':' ∈ host.data := by simpa using h
    exact ⟨by simp [toAddr, hmem], by simp [dialAddr, toAddr, hmem]⟩

theorem toAddr_default_port_witness :
    ("examplehost".data.contains ':' = false ∧
      toAddr "examplehost" = "examplehost" ++ ":22") ∧
    ("examplehost:2222".data.contains ':' = true ∧
      toAddr "examplehost:2222" = "examplehost:2222") :=
  ⟨⟨by decide, ((toAddr_default_port "examplehost").1 (by decide)).1⟩,
   ⟨by decide, ((toAddr_default_port "examplehost:2222").2 (by decide)).1⟩⟩

/-- Claim C3: once a session is started, `(*Client).run` races a timer armed
for `timerDuration sessionTimeout` (which is `math.MaxInt64`, effectively
unbounded, when the configured timeout is zero) against the command's
exit-wait.  If the timer fires first the run returns `SessionTimeoutError`
without stopping the timer (signalling the remote end), whatever the
exit-wait would have produced — in particular even if the command would have
exited 0; if the exit-wait completes first the timer is stopped and the run
returns the wait result (`none` for exit status 0, the exit error otherwise).
A timeout is distinct from every remote non-zero-exit failure. -/
theorem run_timeout_race (cl : Client) (env : SessionEnv)
    (hstart : sessionSetupErr cl env = none) :
    (cl.run env).timerArmed = some (timerDuration cl.sessionTimeout) ∧
    timerDuration 0 = maxInt64 ∧
    (env.timerFiresFirst = true →
      (cl.run env).result = some SSHError.sessionTimeout ∧
      (cl.run env).timerStopped = false ∧
      (cl.run env).signalledRemote = true) ∧
    (∀ w : Option SSHError,
      (Client.run cl { env with waitResult := w, timerFiresFirst := true }).result
        = some SSHError.sessionTimeout) ∧
    (env.timerFiresFirst = false →
      (cl.run env).result = env.waitResult ∧ (cl.run env).timerStopped = true) ∧
    (∀ code : Nat,
      (some SSHError.sessionTimeout : Option SSHError) ≠ some (SSHError.exitError code)) := by
  have hstart' : ∀ w, sessionSetupErr cl { env with waitResult := w, timerFiresFirst := true }
      = none := fun _ => hstart
  have hrun : cl.run env = (if env.timerFiresFirst then
      ⟨some SSHError.sessionTimeout, false, true, some (timerDuration cl.sessionTimeout)⟩
    else ⟨env.waitResult, true, false, some (timerDuration cl.sessionTimeout)⟩) := by
    unfold Client.run
    rw [hstart]
  have hrun2 : ∀ w, Client.run cl { env with waitResult := w, timerFiresFirst := true }
      = ⟨some SSHError.sessionTimeout, false, true,
          some (timerDuration cl.sessionTimeout)⟩ := by
    intro w
    unfold Client.run
    rw [hstart' w]
    rfl
  refine ⟨?_, by simp [timerDuration, maxInt64], ?_, ?_, ?_, ?_⟩
  · rw [hrun]
    split <;> rfl
  · intro h
    simp [hrun, h]
  · intro w
    rw [hrun2 w]
  · intro h
    simp [hrun, h]
  · intro code
    simp

theorem run_timeout_race_witness :
    sessionSetupErr clientH1 sessEnvTimedOut = none ∧
    ((clientH1.run sessEnvTimedOut).result = some SSHError.sessionTimeout ∧
      (clientH1.run sessEnvTimedOut).timerStopped = false) := by
  refine ⟨rfl, ?_, ?_⟩
  · exact ((run_timeout_race clientH1 sessEnvTimedOut rfl).2.2.1 rfl).1
  · exact ((run_timeout_race clientH1 sessEnvTimedOut rfl).2.2.1 rfl).2.1

theorem goMaxFlight_pos (maxFlight : Int) : 1 ≤ goMaxFlight maxFlight := by
  unfold goMaxFlight
  split <;> omega

theorem orchInv_step (hosts : List String) (maxFlight : Int) (s s' : OrchState)
    (hstep : OrchStep hosts maxFlight s s') (hinv : OrchInv hosts maxFlight s) :
    OrchInv hosts maxFlight s' := by
  obtain ⟨hpre, hcnt, hbound⟩ := hinv
  cases hstep with
  | dispatch hlen hsem =>
    refine ⟨?_, ?_, ?_⟩
    · show s.dispatched ++ [hosts.get ⟨s.dispatched.length, hlen⟩]
        = hosts.take (s.dispatched ++ [hosts.get ⟨s.dispatched.length, hlen⟩]).length
      rw [List.length_append, List.length_singleton, List.take_succ,
        ← List.get?_eq_getElem?, List.get?_eq_get hlen, ← hpre]
      rfl
    · show (s.dispatched ++ [hosts.get ⟨s.dispatched.length, hlen⟩]).length
        = (s.active + 1) + s.finished
      rw [List.length_append, List.length_singleton]
      omega
    · show ((s.active + 1 : Nat) : Int) ≤ goMaxFlight maxFlight
      omega
  | complete hact =>
    refine ⟨hpre, ?_, ?_⟩
    · show s.dispatched.length = (s.active - 1) + (s.finished + 1)
      omega
    · show ((s.active - 1 : Nat) : Int) ≤ goMaxFlight maxFlight
      omega

theorem orchInv_reachable (hosts : List String) (maxFlight : Int) (s : OrchState)
    (h : OrchReachable hosts maxFlight s) : OrchInv hosts maxFlight s := by
  unfold OrchReachable at h
  induction h with
  | refl =>
    refine ⟨by simp, rfl, ?_⟩
    have := goMaxFlight_pos maxFlight
    show ((0 : Nat) : Int) ≤ goMaxFlight maxFlight
    omega
  | tail _ hstep ih =>
    exact orchInv_step hosts maxFlight _ _ hstep ih

/-- Claim C2: in every reachable scheduling state of
`RunOn(hosts, cmd, maxFlight, cfg)` with ceiling at least 1, at most
`maxFlight` pipelines are simultaneously active; the dispatched hosts are
always a prefix of the input list taken in order; and whenever `RunOn`
returns (dispatch loop exhausted, join barrier passed) every host of the list
has been dispatched and every dispatched pipeline has finished — no early
return on a failure. -/
theorem RunOn_bounded_and_complete (hosts : List String) (maxFlight : Int)
    (s : OrchState) (hreach : OrchReachable hosts maxFlight s) :
    ((1 : Int) ≤ maxFlight → (s.active : Int) ≤ maxFlight) ∧
    s.dispatched = hosts.take s.dispatched.length ∧
    (Returned hosts s →
      s.dispatched = hosts ∧ s.active = 0 ∧ s.finished = hosts.length) := by
  obtain ⟨hpre, hcnt, hbound⟩ := orchInv_reachable hosts maxFlight s hreach
  refine ⟨fun h1 => ?_, hpre, fun hret => ?_⟩
  · have hg : goMaxFlight maxFlight = maxFlight := by
      unfold goMaxFlight
      split <;> omega
    rw [hg] at hbound
    exact hbound
  · obtain ⟨hdl, hact⟩ := hret
    have hd : s.dispatched = hosts := by
      rw [hpre, hdl, List.take_length]
    exact ⟨hd, hact, by omega⟩

theorem RunOn_bounded_and_complete_witness :
    OrchReachable ["a", "b"] 1 ⟨["a", "b"], 0, 2⟩ ∧
    (((1 : Int) ≤ 1 → (((⟨["a", "b"], 0, 2⟩ : OrchState).active : Nat) : Int) ≤ 1) ∧
      (⟨["a", "b"], 0, 2⟩ : OrchState).dispatched
        = ["a", "b"].take (⟨["a", "b"], 0, 2⟩ : OrchState).dispatched.length ∧
      (Returned ["a", "b"] ⟨["a", "b"], 0, 2⟩ →
        (⟨["a", "b"], 0, 2⟩ : OrchState).dispatched = ["a", "b"] ∧
        (⟨["a", "b"], 0, 2⟩ : OrchState).active = 0 ∧
        (⟨["a", "b"], 0, 2⟩ : OrchState).finished = ["a", "b"].length)) := by
  have s1 : OrchStep ["a", "b"] 1 ⟨[], 0, 0⟩ ⟨["a"], 1, 0⟩ :=
    OrchStep.dispatch ⟨[], 0, 0⟩ (by decide) (by decide)
  have s2 : OrchStep ["a", "b"] 1 ⟨["a"], 1, 0⟩ ⟨["a"], 0, 1⟩ :=
    OrchStep.complete ⟨["a"], 1, 0⟩ (by decide)
  have s3 : OrchStep ["a", "b"] 1 ⟨["a"], 0, 1⟩ ⟨["a", "b"], 1, 1⟩ :=
    OrchStep.dispatch ⟨["a"], 0, 1⟩ (by decide) (by decide)
  have s4 : OrchStep ["a", "b"] 1 ⟨["a", "b"], 1, 1⟩ ⟨["a", "b"], 0, 2⟩ :=
    OrchStep.complete ⟨["a", "b"], 1, 1⟩ (by decide)
  have hreach : OrchReachable ["a", "b"] 1 ⟨["a", "b"], 0, 2⟩ :=
    Relation.ReflTransGen.tail
      (Relation.ReflTransGen.tail
        (Relation.ReflTransGen.tail
          (Relation.ReflTransGen.tail Relation.ReflTransGen.refl s1) s2) s3) s4
  exact ⟨hreach, RunOn_bounded_and_complete ["a", "b"] 1 ⟨["a", "b"], 0, 2⟩ hreach⟩

theorem statusHandler_dialLoggerUpdate (host : String) (now : Nat) (cfg : Config) :
    (dialLoggerUpdate host now cfg).StatusHandler = cfg.StatusHandler := by
  rcases hL : cfg.Logger with _ | l <;> simp [dialLoggerUpdate, hL]

theorem Run_single_event (host cmd : String) (cfg : Config) (now : Nat)
    (env : HostEnv) (hset : cfg.StatusHandler = true) :
    (Run host cmd cfg now env).2 = [(host, runStatusOf host cmd cfg now env)] ∧
    (Run host cmd cfg now env).1 = RunResult.ok (runStatusOf host cmd cfg now env) := by
  have hupd : (dialLoggerUpdate host now cfg).StatusHandler = true := by
    rw [statusHandler_dialLoggerUpdate, hset]
  rcases hn : env.dialEnv.netErr with _ | e <;>
    rcases hh : env.dialEnv.handshakeErr with _ | e2 <;>
      simp [Run, runStatusOf, Dial, dial, Client.Run, hn, hh, hupd]

theorem collate_aux_length (evs : List (String × Option SSHError)) :
    ∀ agg : Aggregate,
      ((evs.foldl (fun agg ev => printAndCollateStatus agg ev.1 ev.2) agg).succeeded.length
        + (evs.foldl (fun agg ev => printAndCollateStatus agg ev.1 ev.2) agg).failed.length)
      = agg.succeeded.length + agg.failed.length + evs.length := by
  induction evs with
  | nil => intro agg; simp
  | cons ev rest ih =>
    intro agg
    rw [List.foldl_cons, ih]
    rcases hs : ev.2 with _ | e <;> simp [printAndCollateStatus, hs] <;> omega

theorem collate_aux_count (h : String) (evs : List (String × Option SSHError)) :
    ∀ agg : Aggregate,
      ((evs.foldl (fun agg ev => printAndCollateStatus agg ev.1 ev.2) agg).succeeded.count h
        + (evs.foldl (fun agg ev => printAndCollateStatus agg ev.1 ev.2) agg).failed.count h)
      = agg.succeeded.count h + agg.failed.count h + (evs.map Prod.fst).count h := by
  induction evs with
  | nil => intro agg; simp
  | cons ev rest ih =>
    intro agg
    rw [List.foldl_cons, ih, List.map_cons]
    by_cases hev : ev.1 = h <;>
      rcases hs : ev.2 with _ | e <;>
        simp [printAndCollateStatus, hs, List.count_append, List.count_cons, hev] <;>
          omega

theorem runOnFrom_eq_map (cmd : String) (cfg : Config) (now : Nat)
    (envs : Nat → HostEnv) (hset : cfg.StatusHandler = true) :
    ∀ (hosts : List String) (i : Nat),
      runOnFrom hosts cmd cfg now envs i
        = (hosts.enumFrom i).map
            (fun p => (p.2, runStatusOf p.2 cmd cfg now (envs p.1))) := by
  intro hosts
  induction hosts with
  | nil => intro i; rfl
  | cons h t ih =>
    intro i
    show (Run h cmd cfg now (envs i)).2 ++ runOnFrom t cmd cfg now envs (i + 1) = _
    rw [(Run_single_event h cmd cfg now (envs i) hset).1, ih (i + 1)]
    rfl

theorem runOnCfg_statusHandler (cfg : Config) (now : Nat)
    (hset : cfg.StatusHandler = true) :
    (runOnCfg cfg now).StatusHandler = true := by
  rcases hL : cfg.Logger with _ | l <;> simp [runOnCfg, hL, hset]

/-- Claim C1: in a `RunOn` whose configuration carries a status handler (as
with `printAndCollateStatus`), the status handler is invoked exactly once per
host — the event list is exactly one `(host, status)` event per entry of the
input list, in order, with a `none` status exactly when that host's pipeline
succeeded — and, after collating, `succeeded` and `failed` together contain
exactly one entry per input host: their sizes sum to N and, for every host
name, its multiplicity across the two lists equals its multiplicity in the
input list (so a host of a duplicate-free input appears in exactly one of the
two, exactly once). -/
theorem RunOn_status_once_per_host (hosts : List String) (cmd : String)
    (maxFlight : Int) (cfg : Config) (now : Nat) (envs : Nat → HostEnv)
    (hset : cfg.StatusHandler = true) :
    runOnEvents hosts cmd maxFlight cfg now envs
      = hosts.enum.map
          (fun p => (p.2, runStatusOf p.2 cmd (runOnCfg cfg now) now (envs p.1))) ∧
    ((runOnAggregate hosts cmd maxFlight cfg now envs).succeeded.length
      + (runOnAggregate hosts cmd maxFlight cfg now envs).failed.length
      = hosts.length) ∧
    (∀ h : String,
      (runOnAggregate hosts cmd maxFlight cfg now envs).succeeded.count h
        + (runOnAggregate hosts cmd maxFlight cfg now envs).failed.count h
        = hosts.count h) ∧
    (∀ p ∈ hosts.enum,
      (runStatusOf p.2 cmd (runOnCfg cfg now) now (envs p.1) = none
        ↔ (Run p.2 cmd (runOnCfg cfg now) now (envs p.1)).1 = RunResult.ok none)) := by
  have hset' : (runOnCfg cfg now).StatusHandler = true :=
    runOnCfg_statusHandler cfg now hset
  have hevs : runOnEvents hosts cmd maxFlight cfg now envs
      = hosts.enum.map
          (fun p => (p.2, runStatusOf p.2 cmd (runOnCfg cfg now) now (envs p.1))) :=
    runOnFrom_eq_map cmd (runOnCfg cfg now) now envs hset' hosts 0
  have hmapfst : (runOnEvents hosts cmd maxFlight cfg now envs).map Prod.fst = hosts := by
    rw [hevs, List.map_map]
    exact List.enumFrom_map_snd 0 hosts
  refine ⟨hevs, ?_, fun h => ?_, fun p hp => ?_⟩
  · have hlen := collate_aux_length (runOnEvents hosts cmd maxFlight cfg now envs) ⟨[], []⟩
    have hN : (runOnEvents hosts cmd maxFlight cfg now envs).length = hosts.length := by
      rw [hevs, List.length_map]
      exact List.enumFrom_length
    simpa [runOnAggregate, collate, hN] using hlen
  · have hcnt := collate_aux_count h (runOnEvents hosts cmd maxFlight cfg now envs) ⟨[], []⟩
    simpa [runOnAggregate, collate, hmapfst] using hcnt
  · rw [(Run_single_event p.2 cmd (runOnCfg cfg now) now (envs p.1) hset').2]
    simp

theorem RunOn_status_once_per_host_witness :
    cfgWithHandler.StatusHandler = true ∧
    (runOnEvents ["h1", "h2"] "hostname" 1 cfgWithHandler 0
        (fun _ => ⟨dialEnvOk, sessEnvOk⟩)
      = (["h1", "h2"] : List String).enum.map
          (fun p => (p.2, runStatusOf p.2 "hostname" (runOnCfg cfgWithHandler 0) 0
            ((fun _ => (⟨dialEnvOk, sessEnvOk⟩ : HostEnv)) p.1))) ∧
    ((runOnAggregate ["h1", "h2"] "hostname" 1 cfgWithHandler 0
        (fun _ => ⟨dialEnvOk, sessEnvOk⟩)).succeeded.length
      + (runOnAggregate ["h1", "h2"] "hostname" 1 cfgWithHandler 0
        (fun _ => ⟨dialEnvOk, sessEnvOk⟩)).failed.length
      = (["h1", "h2"] : List String).length) ∧
    (∀ h : String,
      (runOnAggregate ["h1", "h2"] "hostname" 1 cfgWithHandler 0
          (fun _ => ⟨dialEnvOk, sessEnvOk⟩)).succeeded.count h
        + (runOnAggregate ["h1", "h2"] "hostname" 1 cfgWithHandler 0
          (fun _ => ⟨dialEnvOk, sessEnvOk⟩)).failed.count h
        = (["h1", "h2"] : List String).count h) ∧
    (∀ p ∈ (["h1", "h2"] : List String).enum,
      (runStatusOf p.2 "hostname" (runOnCfg cfgWithHandler 0) 0
          ((fun _ => (⟨dialEnvOk, sessEnvOk⟩ : HostEnv)) p.1) = none
        ↔ (Run p.2 "hostname" (runOnCfg cfgWithHandler 0) 0
            ((fun _ => (⟨dialEnvOk, sessEnvOk⟩ : HostEnv)) p.1)).1
          = RunResult.ok none))) :=
  ⟨rfl, RunOn_status_once_per_host ["h1", "h2"] "hostname" 1 cfgWithHandler 0
    (fun _ => ⟨dialEnvOk, sessEnvOk⟩) rfl⟩

/-- Claim C4 is refuted by the code (code bug): when no status handler is
configured and the underlying dial fails, `Dial` returns a nil client with a
NIL error — the dial error is swallowed by the fall-through
`return client, nil` — and the caller `Run`, seeing a nil error, proceeds to
use the nil client (`defer client.Close()`), a nil-pointer dereference that
violates the code's own comment `cl.client can never be nil`.  The inner
`dial` does produce the error; with a status handler configured the error is
propagated as the claim states. -/
theorem Dial_swallows_error_without_handler :
    (dial "h1" (dialLoggerUpdate "h1" 0 cfgNoStatusHandler) dialEnvNetFail).2
      = some (SSHError.dialError 0) ∧
    cfgNoStatusHandler.StatusHandler = false ∧
    (Dial "h1" cfgNoStatusHandler 0 dialEnvNetFail).1 = (none, none) ∧
    (Run "h1" "true" cfgNoStatusHandler 0 ⟨dialEnvNetFail, sessEnvOk⟩).1
      = RunResult.nilPanic ∧
    (Dial "h1" cfgWithHandler 0 dialEnvNetFail).1
      = (none, some (SSHError.dialError 0)) := by
  decide

/-- Claim C5 is false as stated: `Dial` does write a new logger through the
shared `Config` — `cfg.Logger = cfg.Logger.WithSubject(host)` assigns the
host-labelled copy to the Logger field of the pointed-to configuration, so
after `Dial` returns, the passed `Config` is not unchanged. -/
theorem Dial_mutates_passed_config :
    ((Dial "h1" cfgWithHandler 0 dialEnvOk).2.1).Logger ≠ cfgWithHandler.Logger := by
  decide

/-- Claim C5 amended: every field of the passed `Config` other than `Logger`
is unchanged by `Dial`; the `Logger` field is overwritten (through the shared
`Config`) with the host-labelled copy `WithSubject host` (or a fresh logger
labelled with the host when it was nil).  Likewise `RunOn` changes nothing
but the `Logger` field, which it only defaults to a fresh `main`-labelled
logger when nil. -/
theorem Dial_config_frame (host : String) (cfg : Config) (now : Nat) (env : DialEnv) :
    (Dial host cfg now env).2.1.Login = cfg.Login ∧
    (Dial host cfg now env).2.1.AuthMethods = cfg.AuthMethods ∧
    (Dial host cfg now env).2.1.ConnectTimeout = cfg.ConnectTimeout ∧
    (Dial host cfg now env).2.1.SessionTimeout = cfg.SessionTimeout ∧
    (Dial host cfg now env).2.1.StdoutHandler = cfg.StdoutHandler ∧
    (Dial host cfg now env).2.1.StderrHandler = cfg.StderrHandler ∧
    (Dial host cfg now env).2.1.StatusHandler = cfg.StatusHandler ∧
    (Dial host cfg now env).2.1.Logger = some (match cfg.Logger with
      | none => GetLogger now host 2
      | some l => l.WithSubject host) ∧
    (runOnCfg cfg now).Login = cfg.Login ∧
    (runOnCfg cfg now).AuthMethods = cfg.AuthMethods ∧
    (runOnCfg cfg now).ConnectTimeout = cfg.ConnectTimeout ∧
    (runOnCfg cfg now).SessionTimeout = cfg.SessionTimeout ∧
    (runOnCfg cfg now).StdoutHandler = cfg.StdoutHandler ∧
    (runOnCfg cfg now).StderrHandler = cfg.StderrHandler ∧
    (runOnCfg cfg now).StatusHandler = cfg.StatusHandler ∧
    (runOnCfg cfg now).Logger = some (match cfg.Logger with
      | none => GetLogger now "main" 2
      | some l => l) := by
  have hc : (Dial host cfg now env).2.1 = dialLoggerUpdate host now cfg := by
    simp only [Dial]
    split
    · split <;> rfl
    · rfl
  simp only [hc]
  cases hL : cfg.Logger <;>
    simp [dialLoggerUpdate, runOnCfg, hL]

/-- Claim C7: a concurrency ceiling below 1 (zero or negative) is coerced to
1 before dispatching, and a run with ceiling 0 behaves identically to the
same run with ceiling 1: the dispatch-step relations coincide and the emitted
status events coincide. -/
theorem maxFlight_coerced_to_one (m : Int) :
    (m < 1 → goMaxFlight m = 1) ∧
    (∀ (hosts : List String) (s s' : OrchState),
      OrchStep hosts 0 s s' ↔ OrchStep hosts 1 s s') ∧
    (∀ hosts cmd cfg now envs,
      runOnEvents hosts cmd 0 cfg now envs = runOnEvents hosts cmd 1 cfg now envs) := by
  refine ⟨fun h => by simp [goMaxFlight, h], fun hosts s s' => ?_, fun _ _ _ _ _ => rfl⟩
  constructor
  · intro h
    cases h with
    | dispatch hlen hsem =>
      exact OrchStep.dispatch _ hlen
        (by rw [show goMaxFlight (1 : Int) = goMaxFlight 0 from by decide]; exact hsem)
    | complete hact => exact OrchStep.complete _ hact
  · intro h
    cases h with
    | dispatch hlen hsem =>
      exact OrchStep.dispatch _ hlen
        (by rw [show goMaxFlight (0 : Int) = goMaxFlight 1 from by decide]; exact hsem)
    | complete hact => exact OrchStep.complete _ hact

theorem maxFlight_coerced_to_one_witness :
    (0 : Int) < 1 ∧ goMaxFlight 0 = 1 :=
  ⟨by decide, (maxFlight_coerced_to_one 0).1 (by decide)⟩

/-- Claim C9: the `-p` port flag is parsed into `Flags` but never read
afterwards: two runs differing only in the port flag's value take the same
action, and the address actually dialed is a function of the host string
alone (`toAddr`, which defaults to port 22 exactly when the host string
carries no colon). -/
theorem port_flag_never_read (fl : Flags) (args : List String)
    (identOk agentOk targetsOk : Bool) (p q : String) :
    mainPlan { fl with port := p } args identOk agentOk targetsOk
      = mainPlan { fl with port := q } args identOk agentOk targetsOk ∧
    (∀ host : String, dialAddr host = toAddr host) :=
  ⟨rfl, fun _ => rfl⟩

/-- Claim C10: a stream containing a line whose bytes (content plus newline)
exceed the scanner's maximum token size (`bufio.MaxScanTokenSize`, 64 KiB)
is forwarded only up to that line: every line before the first oversized one
is forwarded as one atomic `host:stream:text` write under the output mutex,
the oversized line and everything after it are dropped, and the scanner
error is reported (`scanner.Err() != nil`, printed to the process stderr).
The session's outcome is unaffected: the run result does not depend on the
stream contents. -/
theorem printLines_drops_oversized_tail (host stream : String)
    (lines : List String) (i : Nat) (hi : i < lines.length)
    (hbefore : ∀ j, j < i → ¬ lineTooLong (lines.getD j ""))
    (hover : lineTooLong (lines.getD i "")) :
    (printLines host stream lines).writes
        = (lines.take i).map (fun l => host ++ ":" ++ stream ++ ":" ++ l ++ "\n") ∧
    (printLines host stream lines).scanErr = true ∧
    (∀ cl env sa sb sa' sb',
      (runWithStreams cl env sa sb).1 = (runWithStreams cl env sa' sb').1) := by
  have main : ∀ (ls : List String) (i : Nat), i < ls.length →
      (∀ j, j < i → ¬ lineTooLong (ls.getD j "")) → lineTooLong (ls.getD i "") →
      (printLines host stream ls).writes
          = (ls.take i).map (fun l => host ++ ":" ++ stream ++ ":" ++ l ++ "\n") ∧
      (printLines host stream ls).scanErr = true := by
    intro ls
    induction ls with
    | nil => intro i hi; exact absurd hi (by simp)
    | cons l rest ih =>
      intro i hi hb ho
      cases i with
      | zero =>
        have hl : lineTooLong l := by simpa using ho
        simp [printLines, hl]
      | succ j =>
        have hl : ¬ lineTooLong l := by simpa using hb 0 (Nat.succ_pos j)
        have hrec := ih j (by simpa using hi)
          (fun k hk => by simpa using hb (k + 1) (Nat.succ_lt_succ hk))
          (by simpa using ho)
        simp [printLines, hl, hrec.1, hrec.2]
  exact ⟨(main lines i hi hbefore hover).1, (main lines i hi hbefore hover).2,
    fun _ _ _ _ _ _ => rfl⟩

theorem printLines_drops_oversized_tail_witness :
    ((0 : Nat) < ([bigLine] : List String).length ∧
      (∀ j, j < 0 → ¬ lineTooLong (([bigLine] : List String).getD j "")) ∧
      lineTooLong (([bigLine] : List String).getD 0 "")) ∧
    ((printLines "h1" "stdout" [bigLine]).writes
        = (([bigLine] : List String).take 0).map
            (fun l => "h1" ++ ":" ++ "stdout" ++ ":" ++ l ++ "\n") ∧
      (printLines "h1" "stdout" [bigLine]).scanErr = true) := by
  have hover : lineTooLong (([bigLine] : List String).getD 0 "") := by
    show lineTooLong bigLine
    unfold lineTooLong maxScanTokenSize
    rw [bigLine_data_length]
    omega
  have hres := printLines_drops_oversized_tail "h1" "stdout" [bigLine] 0
    (by simp) (fun j hj => absurd hj (Nat.not_lt_zero j)) hover
  exact ⟨⟨by simp, fun j hj => absurd hj (Nat.not_lt_zero j), hover⟩, hres.1, hres.2.1⟩

end GoSSH

namespace GoRange

theorem decDigit_isDigit (n : Nat) (h : n < 10) : (decDigit n).isDigit = true := by
  interval_cases n <;> decide

theorem digitVal_decDigit (n : Nat) (h : n < 10) : digitVal (decDigit n) = n := by
  interval_cases n <;> decide

theorem natDec_ne_nil (n : Nat) : natDec n ≠ [] := by
  unfold natDec
  split <;> simp

theorem natDec_digits (n : Nat) : ∀ c ∈ natDec n, c.isDigit = true := by
  induction n using Nat.strong_induction_on with
  | _ n ih =>
    unfold natDec
    split
    · next h =>
      intro c hc
      rw [List.mem_singleton] at hc
      subst hc
      exact decDigit_isDigit n h
    · next h =>
      intro c hc
      rw [List.mem_append] at hc
      cases hc with
      | inl hc => exact ih (n / 10) (Nat.div_lt_self (by omega) (by omega)) c hc
      | inr hc =>
        rw [List.mem_singleton] at hc
        subst hc
        exact decDigit_isDigit (n % 10) (Nat.mod_lt n (by omega))

theorem decToNat_append_digit (ds : List Char) (c : Char) :
    decToNat (ds ++ [c]) = decToNat ds * 10 + digitVal c := by
  unfold decToNat
  rw [List.foldl_append]
  rfl

theorem decToNat_natDec (n : Nat) : decToNat (natDec n) = n := by
  induction n using Nat.strong_induction_on with
  | _ n ih =>
    unfold natDec
    split
    · next h =>
      show decToNat [decDigit n] = n
      unfold decToNat
      simp [digitVal_decDigit n h]
    · next h =>
      rw [decToNat_append_digit, ih (n / 10) (Nat.div_lt_self (by omega) (by omega)),
        digitVal_decDigit (n % 10) (Nat.mod_lt n (by omega))]
      omega

theorem takeWhile_append_all {pred : Char → Bool} (xs ys : List Char)
    (h : ∀ c ∈ xs, pred c = true) :
    (xs ++ ys).takeWhile pred = xs ++ ys.takeWhile pred := by
  induction xs with
  | nil => simp
  | cons x xt ih =>
    rw [List.cons_append, List.takeWhile_cons_of_pos (h x (by simp)),
      ih (fun c hc => h c (by simp [hc]))]
    rfl

theorem dropWhile_append_all {pred : Char → Bool} (xs ys : List Char)
    (h : ∀ c ∈ xs, pred c = true) :
    (xs ++ ys).dropWhile pred = ys.dropWhile pred := by
  induction xs with
  | nil => simp
  | cons x xt ih =>
    rw [List.cons_append, List.dropWhile_cons_of_pos (h x (by simp))]
    exact ih (fun c hc => h c (by simp [hc]))

theorem isPrefixOf_append_self (xs ys : List Char) : xs.isPrefixOf (xs ++ ys) = true := by
  induction xs with
  | nil => simp
  | cons x xt ih => simpa [List.isPrefixOf_cons₂_self] using ih

/-- `takeWhile`/`dropWhile` on an all-digit block followed by a remainder that
is empty or starts with a non-digit. -/
theorem digits_block_split (xs r : List Char) (hxs : ∀ c ∈ xs, c.isDigit = true)
    (hr : r = [] ∨ ∃ c cs, r = c :: cs ∧ c.isDigit = false) :
    (xs ++ r).takeWhile Char.isDigit = xs ∧ (xs ++ r).dropWhile Char.isDigit = r := by
  constructor
  · rw [takeWhile_append_all xs r hxs]
    rcases hr with rfl | ⟨c, cs, rfl, hc⟩
    · simp
    · rw [List.takeWhile_cons_of_neg (by simp [hc])]
      simp
  · rw [dropWhile_append_all xs r hxs]
    rcases hr with rfl | ⟨c, cs, rfl, hc⟩
    · simp
    · rw [List.dropWhile_cons_of_neg (by simp [hc])]

theorem parseSep_exact (sep p d1 d2 r : List Char)
    (hsep : ∃ c cs, sep = c :: cs ∧ c.isDigit = false)
    (hp : ∀ c ∈ p, c.isDigit = false)
    (hd1ne : d1 ≠ []) (hd1 : ∀ c ∈ d1, c.isDigit = true)
    (hd2ne : d2 ≠ []) (hd2 : ∀ c ∈ d2, c.isDigit = true)
    (hr : r = [] ∨ ∃ c cs, r = c :: cs ∧ c.isDigit = false) :
    parseSep sep (p ++ d1 ++ sep ++ d2 ++ r) = some (p, d1, d2, r) := by
  induction p with
  | nil =>
    obtain ⟨c1, d1t, rfl⟩ : ∃ c1 d1t, d1 = c1 :: d1t := by
      cases d1 with
      | nil => exact absurd rfl hd1ne
      | cons x y => exact ⟨x, y, rfl⟩
    obtain ⟨c2, d2t, rfl⟩ : ∃ c2 d2t, d2 = c2 :: d2t := by
      cases d2 with
      | nil => exact absurd rfl hd2ne
      | cons x y => exact ⟨x, y, rfl⟩
    obtain ⟨c0, sept, rfl, hc0⟩ := hsep
    have hd1t : ∀ c ∈ d1t, c.isDigit = true := fun c hc => hd1 c (by simp [hc])
    have hd2t : ∀ c ∈ d2t, c.isDigit = true := fun c hc => hd2 c (by simp [hc])
    have hsplit2 := digits_block_split d2t r hd2t hr
    simp only [List.nil_append, List.cons_append, List.append_assoc]
    rw [parseSep]
    rw [if_pos (hd1 c1 (by simp))]
    have hdw : (d1t ++ (c0 :: (sept ++ (c2 :: (d2t ++ r))))).dropWhile Char.isDigit
        = c0 :: (sept ++ (c2 :: (d2t ++ r))) := by
      rw [dropWhile_append_all d1t _ hd1t]
      exact List.dropWhile_cons_of_neg (by simp [hc0])
    have htw : (d1t ++ (c0 :: (sept ++ (c2 :: (d2t ++ r))))).takeWhile Char.isDigit
        = d1t := by
      rw [takeWhile_append_all d1t _ hd1t]
      rw [List.takeWhile_cons_of_neg (by simp [hc0])]
      simp
    rw [hdw, htw]
    rw [if_pos (show (c0 :: sept).isPrefixOf (c0 :: (sept ++ (c2 :: (d2t ++ r)))) = true
      from isPrefixOf_append_self (c0 :: sept) (c2 :: (d2t ++ r)))]
    have hdrop : (c0 :: (sept ++ (c2 :: (d2t ++ r)))).drop (c0 :: sept).length
        = c2 :: (d2t ++ r) := List.drop_left (c0 :: sept) (c2 :: (d2t ++ r))
    rw [hdrop]
    show (if c2.isDigit = true then
        some ([], c1 :: d1t, c2 :: (d2t ++ r).takeWhile Char.isDigit,
          (d2t ++ r).dropWhile Char.isDigit)
      else (parseSep (c0 :: sept) (c0 :: (sept ++ (c2 :: (d2t ++ r))))).map
        (fun q => ((c1 :: d1t) ++ q.1, q.2)))
      = some ([], c1 :: d1t, c2 :: d2t, r)
    rw [if_pos (hd2 c2 (by simp))]
    rw [hsplit2.1, hsplit2.2]
  | cons x pt ih =>
    have hx : x.isDigit = false := hp x (by simp)
    have ih' := ih (fun c hc => hp c (by simp [hc]))
    simp only [List.cons_append, List.append_assoc] at ih' ⊢
    rw [parseSep]
    rw [if_neg (by simp [hx])]
    rw [ih']
    rfl

theorem parseSep_nodigits (sep cs : List Char) (h : ∀ c ∈ cs, c.isDigit = false) :
    parseSep sep cs = none := by
  induction cs with
  | nil => rw [parseSep]
  | cons c rest ih =>
    rw [parseSep]
    rw [if_neg (by simp [h c (by simp)])]
    rw [ih (fun c hc => h c (by simp [hc]))]
    rfl

theorem replaceSepFuel_none (sepA sepB : List Char) (fuel : Nat) (cs : List Char)
    (h : parseSep sepA cs = none) : replaceSepFuel sepA sepB fuel cs = cs := by
  cases fuel with
  | zero => rfl
  | succ f => simp [replaceSepFuel, h]

theorem replaceSep_structured (sepA sepB p d1 d2 r : List Char)
    (hsepA : ∃ c cs, sepA = c :: cs ∧ c.isDigit = false)
    (hp : ∀ c ∈ p, c.isDigit = false)
    (hd1ne : d1 ≠ []) (hd1 : ∀ c ∈ d1, c.isDigit = true)
    (hd2ne : d2 ≠ []) (hd2 : ∀ c ∈ d2, c.isDigit = true)
    (hrdf : ∀ c ∈ r, c.isDigit = false) :
    replaceSep sepA sepB (p ++ d1 ++ sepA ++ d2 ++ r) = p ++ d1 ++ sepB ++ d2 ++ r := by
  have hr : r = [] ∨ ∃ c cs, r = c :: cs ∧ c.isDigit = false := by
    cases r with
    | nil => exact Or.inl rfl
    | cons c cs => exact Or.inr ⟨c, cs, rfl, hrdf c (by simp)⟩
  have hparse := parseSep_exact sepA p d1 d2 r hsepA hp hd1ne hd1 hd2ne hd2 hr
  unfold replaceSep
  cases hlen : (p ++ d1 ++ sepA ++ d2 ++ r).length with
  | zero =>
    exfalso
    have : 0 < d1.length := List.length_pos.mpr hd1ne
    simp only [List.length_append] at hlen
    omega
  | succ k =>
    show replaceSepFuel sepA sepB (k + 1) (p ++ d1 ++ sepA ++ d2 ++ r) = _
    rw [replaceSepFuel, hparse]
    show p ++ d1 ++ sepB ++ d2 ++ replaceSepFuel sepA sepB k r = p ++ d1 ++ sepB ++ d2 ++ r
    rw [replaceSepFuel_none sepA sepB k r (parseSep_nodigits sepA r hrdf)]

theorem grangeQuery_structured (p da db s : List Char) (a b : Nat)
    (hp : ∀ c ∈ p, c.isDigit = false) (hs : ∀ c ∈ s, c.isDigit = false)
    (hda : da = natDec a) (hdb : db = natDec b) :
    grangeQuery (String.mk (p ++ da ++ ['.', '.'] ++ db ++ s))
      = (List.range' a (b + 1 - a)).map (fun n => String.mk (p ++ natDec n ++ s)) := by
  have hparse : parseSep ['.', '.'] (String.mk (p ++ da ++ ['.', '.'] ++ db ++ s)).data
      = some (p, da, db, s) := by
    show parseSep ['.', '.'] (p ++ da ++ ['.', '.'] ++ db ++ s) = some (p, da, db, s)
    refine parseSep_exact ['.', '.'] p da db s ⟨'.', ['.'], rfl, by decide⟩ hp
      (by rw [hda]; exact natDec_ne_nil a) (by rw [hda]; exact natDec_digits a)
      (by rw [hdb]; exact natDec_ne_nil b) (by rw [hdb]; exact natDec_digits b) ?_
    cases s with
    | nil => exact Or.inl rfl
    | cons c cs => exact Or.inr ⟨c, cs, rfl, hs c (by simp)⟩
  unfold grangeQuery
  rw [hparse]
  show (List.range' (decToNat da) (decToNat db + 1 - decToNat da)).map
      (fun n => String.mk (p ++ natDec n ++ s)) = _
  rw [hda, hdb, decToNat_natDec, decToNat_natDec]

theorem parseLast_structured (p d s : List Char)
    (hp : ∀ c ∈ p, c.isDigit = false) (hdne : d ≠ []) (hd : ∀ c ∈ d, c.isDigit = true)
    (hs : ∀ c ∈ s, c.isDigit = false) :
    parseLast (p ++ d ++ s) = some (p, d, s) := by
  obtain ⟨cd, dt, hct⟩ : ∃ cd dt, d.reverse = cd :: dt := by
    cases hrev : d.reverse with
    | nil => exact absurd (by simpa using hrev) hdne
    | cons x y => exact ⟨x, y, rfl⟩
  have hcd : cd.isDigit = true := by
    have hmem : cd ∈ d.reverse := by rw [hct]; simp
    exact hd cd (by simpa using hmem)
  have hrev : (p ++ d ++ s).reverse = s.reverse ++ (d.reverse ++ p.reverse) := by
    simp [List.reverse_append, List.append_assoc]
  have hsrev : ∀ c ∈ s.reverse, (!c.isDigit) = true := fun c hc => by
    simp [hs c (by simpa using hc)]
  have hdrev : ∀ c ∈ d.reverse, c.isDigit = true := fun c hc => hd c (by simpa using hc)
  have hdwn : (s.reverse ++ (d.reverse ++ p.reverse)).dropWhile (fun c => !c.isDigit)
      = d.reverse ++ p.reverse := by
    rw [dropWhile_append_all s.reverse _ hsrev, hct]
    exact List.dropWhile_cons_of_neg (by simp [hcd])
  have htwd : (d.reverse ++ p.reverse).takeWhile Char.isDigit = d.reverse := by
    rw [takeWhile_append_all d.reverse _ hdrev]
    cases hpr : p.reverse with
    | nil => simp
    | cons cp pt =>
      have hcp : cp.isDigit = false := by
        have hmem : cp ∈ p := by
          rw [← List.mem_reverse, hpr]
          simp
        exact hp cp hmem
      rw [List.takeWhile_cons_of_neg (by simp [hcp])]
      simp
  have hdwd : (d.reverse ++ p.reverse).dropWhile Char.isDigit = p.reverse := by
    rw [dropWhile_append_all d.reverse _ hdrev]
    cases hpr : p.reverse with
    | nil => rfl
    | cons cp pt =>
      have hcp : cp.isDigit = false := by
        have hmem : cp ∈ p := by
          rw [← List.mem_reverse, hpr]
          simp
        exact hp cp hmem
      exact List.dropWhile_cons_of_neg (by simp [hcp])
  have htwn : (s.reverse ++ (d.reverse ++ p.reverse)).takeWhile (fun c => !c.isDigit)
      = s.reverse := by
    rw [takeWhile_append_all s.reverse _ hsrev, hct, List.cons_append]
    rw [List.takeWhile_cons_of_neg (by simp [hcd])]
    simp
  unfold parseLast
  rw [hrev, hdwn, htwd, hdwd, htwn]
  rw [if_neg (by rw [hct]; simp)]
  simp

theorem mapM_parseLast_nodes (p s : List Char)
    (hp : ∀ c ∈ p, c.isDigit = false) (hs : ∀ c ∈ s, c.isDigit = false)
    (ns : List Nat) :
    (ns.map (fun n => String.mk (p ++ natDec n ++ s))).mapM (fun n => parseLast n.data)
      = some (ns.map (fun n => (p, natDec n, s))) := by
  induction ns with
  | nil => rfl
  | cons n nt ih =>
    have h1 : parseLast (String.mk (p ++ natDec n ++ s)).data = some (p, natDec n, s) :=
      parseLast_structured p (natDec n) s hp (natDec_ne_nil n) (natDec_digits n) hs
    rw [List.map_cons, List.map_cons]
    simp only [List.mapM_cons]
    rw [h1, ih]
    rfl

theorem contiguousFrom_range' (m : Nat) : ∀ n : Nat,
    contiguousFrom n (List.range' (n + 1) m) = true := by
  induction m with
  | zero => intro n; rfl
  | succ k ih =>
    intro n
    rw [List.range'_succ]
    show ((n + 1 == n + 1) && contiguousFrom (n + 1) (List.range' (n + 1 + 1) k)) = true
    simp [ih (n + 1)]

theorem range'_map_getLast? {α : Type} (f : Nat → α) (a m : Nat) :
    ((List.range' a (m + 1)).map f).getLast? = some (f (a + m)) := by
  rw [List.range'_1_concat]
  simp [List.getLast?_concat]

theorem grangeCompress_structured (p s : List Char) (a m : Nat)
    (hp : ∀ c ∈ p, c.isDigit = false) (hs : ∀ c ∈ s, c.isDigit = false) :
    grangeCompress ((List.range' a (m + 2)).map (fun n => String.mk (p ++ natDec n ++ s)))
      = String.mk (p ++ natDec a ++ '.' :: '.' :: (natDec (a + 1 + m) ++ s)) := by
  have hmapM := mapM_parseLast_nodes p s hp hs (List.range' a (m + 2))
  have hcontig : contiguousFrom (decToNat (natDec a))
      (decToNat (natDec (a + 1)) :: (List.range' (a + 2) m).map
        ((fun r : List Char × List Char × List Char => decToNat r.2.1)
          ∘ (fun n => (p, natDec n, s)))) = true := by
    have hcongr : (List.range' (a + 2) m).map
        ((fun r : List Char × List Char × List Char => decToNat r.2.1)
          ∘ (fun n => (p, natDec n, s)))
        = (List.range' (a + 2) m).map (fun n => n) :=
      List.map_congr_left (fun n _ => decToNat_natDec n)
    rw [hcongr, List.map_id', decToNat_natDec, decToNat_natDec]
    rw [show (a + 1) :: List.range' (a + 2) m = List.range' (a + 1) (m + 1) from by
      rw [List.range'_succ]]
    exact contiguousFrom_range' (m + 1) a
  have hlast2 : ((p, natDec (a + 1), s) :: (List.range' (a + 2) m).map
      (fun n => (p, natDec n, s))).getLast? = some (p, natDec (a + 1 + m), s) := by
    rw [show ((p, natDec (a + 1), s) :: (List.range' (a + 2) m).map
        (fun n => (p, natDec n, s)))
        = (List.range' (a + 1) (m + 1)).map (fun n => (p, natDec n, s)) from by
      rw [List.range'_succ, List.map_cons]]
    rw [range'_map_getLast? (fun n => (p, natDec n, s)) (a + 1) m]
  have hgl : ((p, natDec (a + 1), s) :: (List.range' (a + 2) m).map
      (fun n => (p, natDec n, s))).getLast (List.cons_ne_nil _ _)
        = (p, natDec (a + 1 + m), s) := by
    have hh := List.getLast?_eq_getLast ((p, natDec (a + 1), s) ::
      (List.range' (a + 2) m).map (fun n => (p, natDec n, s))) (List.cons_ne_nil _ _)
    rw [hlast2] at hh
    exact (Option.some.inj hh).symm
  unfold grangeCompress
  rw [hmapM]
  rw [show List.range' a (m + 2) = a :: ((a + 1) :: List.range' (a + 2) m) from by
    rw [List.range'_succ, List.range'_succ]]
  simp only [List.map_cons]
  split
  next h => rw [hgl]
  next h =>
    exfalso
    apply h
    constructor
    · rw [List.all_eq_true]
      intro r hr
      rw [List.mem_cons] at hr
      rcases hr with rfl | hr
      · simp
      · obtain ⟨n, hn, rfl⟩ := List.mem_map.mp hr
        simp
    · rw [List.map_map]
      exact hcontig

/-- Claim C8: for a range spec of the shape `prefix<a>-<b>suffix` — digit-free
prefix and suffix around two canonical numerals with `a < b`, as in
`host10-11.example` — `expand` produces exactly the hosts
`prefix<n>suffix` for `n = a..b`, `compress` of that host list returns the
original spec, and therefore `compress (expand spec) = spec`.  The grange
library that realizes `Query`/`Compress` is not part of this repository and is
modelled from the spec (see `grangeQuery`, `grangeCompress`). -/
theorem compress_expand_roundtrip (p da db s : List Char) (a b : Nat)
    (hp : ∀ c ∈ p, c.isDigit = false) (hs : ∀ c ∈ s, c.isDigit = false)
    (hda : da = natDec a) (hdb : db = natDec b) (hab : a < b) :
    expand (String.mk (p ++ da ++ ['-'] ++ db ++ s))
      = (List.range' a (b + 1 - a)).map (fun n => String.mk (p ++ natDec n ++ s)) ∧
    compress ((List.range' a (b + 1 - a)).map (fun n => String.mk (p ++ natDec n ++ s)))
      = String.mk (p ++ da ++ ['-'] ++ db ++ s) ∧
    compress (expand (String.mk (p ++ da ++ ['-'] ++ db ++ s)))
      = String.mk (p ++ da ++ ['-'] ++ db ++ s) := by
  obtain ⟨m, rfl⟩ : ∃ m, b = a + 1 + m := ⟨b - a - 1, by omega⟩
  have hdane : da ≠ [] := by rw [hda]; exact natDec_ne_nil a
  have hdad : ∀ c ∈ da, c.isDigit = true := by rw [hda]; exact natDec_digits a
  have hdbne : db ≠ [] := by rw [hdb]; exact natDec_ne_nil (a + 1 + m)
  have hdbd : ∀ c ∈ db, c.isDigit = true := by rw [hdb]; exact natDec_digits (a + 1 + m)
  have hexp : expand (String.mk (p ++ da ++ ['-'] ++ db ++ s))
      = (List.range' a (a + 1 + m + 1 - a)).map (fun n => String.mk (p ++ natDec n ++ s)) := by
    unfold expand
    have hrep : replaceSep ['-'] ['.', '.']
        (String.mk (p ++ da ++ ['-'] ++ db ++ s)).data
        = p ++ da ++ ['.', '.'] ++ db ++ s := by
      show replaceSep ['-'] ['.', '.'] (p ++ da ++ ['-'] ++ db ++ s)
        = p ++ da ++ ['.', '.'] ++ db ++ s
      exact replaceSep_structured ['-'] ['.', '.'] p da db s
        ⟨'-', [], rfl, by decide⟩ hp hdane hdad hdbne hdbd hs
    rw [hrep]
    exact grangeQuery_structured p da db s a (a + 1 + m) hp hs hda hdb
  have hcomp : compress ((List.range' a (a + 1 + m + 1 - a)).map
      (fun n => String.mk (p ++ natDec n ++ s)))
      = String.mk (p ++ da ++ ['-'] ++ db ++ s) := by
    rw [show a + 1 + m + 1 - a = m + 2 from by omega]
    unfold compress
    rw [grangeCompress_structured p s a m hp hs]
    have hrep2 : replaceSep ['.', '.'] ['-']
        (p ++ natDec a ++ '.' :: '.' :: (natDec (a + 1 + m) ++ s))
        = p ++ da ++ ['-'] ++ db ++ s := by
      have hbase := replaceSep_structured ['.', '.'] ['-'] p (natDec a)
        (natDec (a + 1 + m)) s ⟨'.', ['.'], rfl, by decide⟩ hp
        (natDec_ne_nil a) (natDec_digits a)
        (natDec_ne_nil (a + 1 + m)) (natDec_digits (a + 1 + m)) hs
      rw [hda, hdb]
      simp only [List.append_assoc, List.cons_append, List.nil_append] at hbase ⊢
      exact hbase
    rw [show (String.mk (p ++ natDec a ++ '.' :: '.' :: (natDec (a + 1 + m) ++ s))).data
      = p ++ natDec a ++ '.' :: '.' :: (natDec (a + 1 + m) ++ s) from rfl]
    rw [hrep2]
  exact ⟨hexp, hcomp, by rw [hexp]; exact hcomp⟩

theorem compress_expand_roundtrip_witness :
    ((∀ c ∈ (['h', 'o', 's', 't'] : List Char), c.isDigit = false) ∧
      (∀ c ∈ (['.', 'e', 'x', 'a', 'm', 'p', 'l', 'e'] : List Char), c.isDigit = false) ∧
      (['1', '0'] : List Char) = natDec 10 ∧
      (['1', '1'] : List Char) = natDec 11 ∧ 10 < 11) ∧
    expand "host10-11.example" = ["host10.example", "host11.example"] ∧
    compress ["host10.example", "host11.example"] = "host10-11.example" := by
  have hda : (['1', '0'] : List Char) = natDec 10 := by
    simp [natDec, decDigit]
  have hdb : (['1', '1'] : List Char) = natDec 11 := by
    simp [natDec, decDigit]
  have hthm := compress_expand_roundtrip ['h', 'o', 's', 't'] ['1', '0'] ['1', '1']
    ['.', 'e', 'x', 'a', 'm', 'p', 'l', 'e'] 10 11 (by decide) (by decide) hda hdb
    (by omega)
  have hlist : (List.range' 10 (11 + 1 - 10)).map
      (fun n => String.mk (['h', 'o', 's', 't'] ++ natDec n
        ++ ['.', 'e', 'x', 'a', 'm', 'p', 'l', 'e']))
      = ["host10.example", "host11.example"] := by
    show [String.mk (['h', 'o', 's', 't'] ++ natDec 10
        ++ ['.', 'e', 'x', 'a', 'm', 'p', 'l', 'e']),
      String.mk (['h', 'o', 's', 't'] ++ natDec 11
        ++ ['.', 'e', 'x', 'a', 'm', 'p', 'l', 'e'])]
      = ["host10.example", "host11.example"]
    rw [← hda, ← hdb]
    rfl
  refine ⟨⟨by decide, by decide, hda, hdb, by omega⟩, ?_, ?_⟩
  · rw [show ("host10-11.example" : String)
      = String.mk (['h', 'o', 's', 't'] ++ ['1', '0'] ++ ['-'] ++ ['1', '1']
        ++ ['.', 'e', 'x', 'a', 'm', 'p', 'l', 'e']) from rfl]
    rw [hthm.1]
    exact hlist
  · rw [← hlist]
    rw [hthm.2.1]
    rfl

end GoRange
